import Mathlib

/-!
# Verification of the Chinchón game engine

Shallow embedding of the Go sources of `devblac/chinchon` (files
`chinchon/deck.go`, `chinchon/actions.go` and the game-state file holding
`GameState`, `RunAction`, `CloseRound`, `CalculatePossibleActions`,
`SerializeAction`/`DeserializeAction` and `ToClientGameState`), together with
theorems settling the specification claims about it.

Modelling conventions, recorded once here:

* Go slices become `List`; `int` becomes `Int`; slice indices become `Nat`.
* The two-entry map `GameState.Players` (keys `0` and `1`) becomes the two
  fields `player0`/`player1`; `getPlayer`/`setPlayer` realise map access for
  the ids `0` and `1` (any other id dereferences a nil pointer in Go, so the
  theorems that need a player id restrict it to `0`/`1`).
* A nil `*Hand` is represented by the empty card list.  Every nil-guard of the
  source (`CanClose`, `CloseRound`) is observationally equal to the
  length-test already present on the empty list, noted at each definition.
* Go iterates the `Players` map in unspecified order; this embedding fixes the
  order `0` then `1`.  The same determinisation is applied to the suit/number
  buckets of `findRuns`/`findSets`: the source iterates a `map` keyed by the
  suit (resp. number) in unspecified order, here the keys are enumerated in
  first-occurrence order (`eraseDups`).  Only the order of the produced group
  list depends on this choice, never the set of groups, and every consumer
  (`PenaltyPoints`, `CanClose`) only looks at the union of the groups.
* `rand.Shuffle` is modelled by passing the freshly shuffled deck as an
  explicit argument (`freshDeck`); reachability quantifies over all
  permutations of the fixed card multiset, which is exactly the set of
  outcomes a uniform shuffle can produce.
* JSON documents for actions become the record `ActionDoc` holding the fields
  that `json.Marshal` emits for the action structs: the discriminator `name`,
  `playerID`, and (for the discard variant only) the `card`.
-/

namespace Chinchon

/-- Go `Card`: a suit string and a number (`chinchon/deck.go`). -/
structure Card where
  suit : String
  number : Int
deriving DecidableEq, Repr

/-- Go `Card.PenaltyValue`: 10 for numbers `>= 10`, else the number itself. -/
def Card.penaltyValue (c : Card) : Int :=
  if 10 ≤ c.number then 10 else c.number

/-- The four suit constants `ORO, COPA, ESPADA, BASTO` of `deck.go`. -/
def suitNames : List String := ["oro", "copa", "espada", "basto"]

/-- The card content of Go `makeSpanishCards` before its shuffle: for each of
the four suits, numbers 1 through 12 — i.e. 48 cards. -/
def canonicalDeck : List Card :=
  suitNames.flatMap (fun s => (List.range 12).map (fun i => ⟨s, (i : Int) + 1⟩))

/-- Go `Hand.HasCard`: membership test by value equality. -/
def hasCard (hand : List Card) (c : Card) : Bool :=
  hand.contains c

/-- Go `Hand.RemoveCard`: removes the first occurrence of `c`, or fails with
`errCardNotInHand` (`none`) when the card is absent. -/
def removeCard (hand : List Card) (c : Card) : Option (List Card) :=
  if hand.contains c then some (hand.erase c) else none

/-- Insertion of a card into a list sorted by ascending `number`. -/
def insertByNumber (c : Card) : List Card → List Card
  | [] => [c]
  | d :: rest =>
    if c.number ≤ d.number then c :: d :: rest else d :: insertByNumber c rest

/-- The in-place exchange sort on a suit bucket in `findRuns`/`IsChinchon`,
which sorts the bucket by ascending `number`.  Within one bucket all cards
share the suit, so cards with equal numbers are equal values and the sorted
list is uniquely determined; insertion sort produces that list. -/
def sortByNumber : List Card → List Card
  | [] => []
  | c :: rest => insertByNumber c (sortByNumber rest)

/-- The inner loop of `findRuns`: starting from a card with number `last`,
greedily take successive cards while each has number exactly one more than
the previous, stopping at the first gap. -/
def extendRun (last : Int) : List Card → List Card
  | [] => []
  | c :: rest =>
    if c.number = last + 1 then c :: extendRun c.number rest else []

/-- A greedy run taken from the start of a (sorted) card list. -/
def startRun : List Card → List Card
  | [] => []
  | c :: rest => c :: extendRun c.number rest

/-- The per-suit part of Go `Hand.findRuns`: for every start index `i` with
`i + 3 ≤ length`, take the greedy run starting there and keep it when it has
at least 3 cards. -/
def runStarts (cards : List Card) : List (List Card) :=
  (List.range cards.length).filterMap (fun i =>
    if i + 3 ≤ cards.length then
      let r := startRun (cards.drop i)
      if 3 ≤ r.length then some r else none
    else none)

/-- Go `Hand.findRuns`: bucket the hand by suit, sort each bucket by number,
and collect the greedy runs of each bucket. -/
def findRuns (cards : List Card) : List (List Card) :=
  ((cards.map Card.suit).eraseDups).flatMap (fun s =>
    runStarts (sortByNumber (cards.filter (fun c => c.suit = s))))

/-- Go `Hand.findSets`: bucket the hand by number; a bucket of at least three
cards whose suits are pairwise distinct is a set. -/
def findSets (cards : List Card) : List (List Card) :=
  ((cards.map Card.number).eraseDups).filterMap (fun n =>
    let group := cards.filter (fun c => c.number = n)
    if 3 ≤ group.length ∧ (group.map Card.suit).Nodup then some group else none)

/-- Go `Hand.ValidGroups`: all runs followed by all sets. -/
def validGroups (cards : List Card) : List (List Card) :=
  findRuns cards ++ findSets cards

/-- `consecutiveFrom n l`: every card of `l` has a number one more than its
predecessor, the first one being `n + 1` (the consecutive check of
`IsChinchon` on a sorted bucket). -/
def consecutiveFrom (n : Int) : List Card → Bool
  | [] => true
  | c :: rest => c.number = n + 1 && consecutiveFrom c.number rest

/-- Go `Hand.IsChinchon`: exactly 7 cards, all of one suit, consecutive after
sorting.  The source scans the suit buckets for one of size 7; with a 7-card
hand at most one bucket can reach size 7, found here by `find?`. -/
def isChinchon (cards : List Card) : Bool :=
  if cards.length = 7 then
    match ((cards.map Card.suit).eraseDups).find?
        (fun s => (cards.filter (fun c => c.suit = s)).length = 7) with
    | some s =>
        match sortByNumber (cards.filter (fun c => c.suit = s)) with
        | [] => true
        | c :: rest => consecutiveFrom c.number rest
    | none => false
  else false

/-- A card is covered by the group list (the `groupedCards` map of
`Hand.PenaltyPoints` / `CanClose`). -/
def grouped (groups : List (List Card)) (c : Card) : Bool :=
  groups.any (fun g => g.contains c)

/-- Go `Hand.PenaltyPoints`: sum of `PenaltyValue` over the cards of the hand
not covered by any group, accumulated left to right from 0. -/
def penaltyPoints (cards : List Card) (groups : List (List Card)) : Int :=
  (cards.filter (fun c => ¬ grouped groups c)).foldl
    (fun acc c => acc + c.penaltyValue) 0

/-- The penalty the engine charges for a hand: `PenaltyPoints` applied to the
hand's own `ValidGroups` (as in `CloseRound`). -/
def playerPenalty (cards : List Card) : Int :=
  penaltyPoints cards (validGroups cards)

/-- Go `Player`: a hand and a cumulative score. -/
structure Player where
  hand : List Card
  score : Int
deriving DecidableEq, Repr

/-- The action-name constants of `chinchon/actions.go`. -/
def DRAW_FROM_DECK : String := "draw_from_deck"

/-- Name constant for the draw-from-discard action. -/
def DRAW_FROM_DISCARD : String := "draw_from_discard"

/-- Name constant for the discard action. -/
def DISCARD_CARD : String := "discard_card"

/-- Name constant for the close action. -/
def CLOSE_ROUND : String := "close_round"

/-- Name constant for the confirm-round-finished action. -/
def CONFIRM_ROUND_FINISHED : String := "confirm_round_finished"

/-- The closed set of action variants of `chinchon/actions.go`, each carrying
its acting player id and, for the discard variant, the card. -/
inductive Action where
  | drawFromDeck (playerID : Int)
  | drawFromDiscard (playerID : Int)
  | discardCard (card : Card) (playerID : Int)
  | close (playerID : Int)
  | confirmRoundFinished (playerID : Int)
deriving DecidableEq, Repr

/-- Go `act.GetPlayerID` for each variant. -/
def Action.playerID : Action → Int
  | .drawFromDeck p => p
  | .drawFromDiscard p => p
  | .discardCard _ p => p
  | .close p => p
  | .confirmRoundFinished p => p

/-- Go `act.GetName` for each variant (the discriminator constant). -/
def Action.name : Action → String
  | .drawFromDeck _ => DRAW_FROM_DECK
  | .drawFromDiscard _ => DRAW_FROM_DISCARD
  | .discardCard _ _ => DISCARD_CARD
  | .close _ => CLOSE_ROUND
  | .confirmRoundFinished _ => CONFIRM_ROUND_FINISHED

/-- Go `GetPriority`: every variant inherits the base implementation
returning 0. -/
def Action.priority (_ : Action) : Int := 0

/-- Go `AllowLowerPriority`: every variant inherits the base implementation
returning false. -/
def Action.allowLowerPriority (_ : Action) : Bool := false

/-- The JSON document `json.Marshal` produces for an action struct: the
discriminator `name`, the `playerID`, and the `card` field that only the
discard variant serializes. -/
structure ActionDoc where
  name : String
  playerID : Int
  card : Option Card
deriving DecidableEq, Repr

/-- Go `SerializeAction`: marshal the action into its discriminated
document. -/
def serializeAction : Action → ActionDoc
  | .drawFromDeck p => ⟨DRAW_FROM_DECK, p, none⟩
  | .drawFromDiscard p => ⟨DRAW_FROM_DISCARD, p, none⟩
  | .discardCard c p => ⟨DISCARD_CARD, p, some c⟩
  | .close p => ⟨CLOSE_ROUND, p, none⟩
  | .confirmRoundFinished p => ⟨CONFIRM_ROUND_FINISHED, p, none⟩

/-- Go `DeserializeAction`: read the name field, select the matching concrete
shape, decode the remaining fields into it (an absent `card` decodes to Go's
zero value `Card{}`); an unknown name fails. -/
def deserializeAction (doc : ActionDoc) : Except String Action :=
  if doc.name = DRAW_FROM_DECK then .ok (.drawFromDeck doc.playerID)
  else if doc.name = DRAW_FROM_DISCARD then .ok (.drawFromDiscard doc.playerID)
  else if doc.name = DISCARD_CARD then
    .ok (.discardCard (doc.card.getD ⟨"", 0⟩) doc.playerID)
  else if doc.name = CLOSE_ROUND then .ok (.close doc.playerID)
  else if doc.name = CONFIRM_ROUND_FINISHED then
    .ok (.confirmRoundFinished doc.playerID)
  else .error "unknown action"

/-- Go `ActionLog`: acting player id plus the serialized action. -/
structure ActionLog where
  playerID : Int
  action : ActionDoc
deriving DecidableEq, Repr

/-- Go `RoundLog`.  The maps `HandsDealt` and `PenaltyPoints` (keys 0 and 1)
become paired fields; a missing `PenaltyPoints` entry reads as Go's zero
value 0. -/
structure RoundLog where
  handsDealt0 : List Card
  handsDealt1 : List Card
  winnerPlayerID : Int
  loserPlayerID : Int
  penaltyPoints0 : Int
  penaltyPoints1 : Int
  closedByPlayerID : Int
  wasChinchon : Bool
  actionsLog : List ActionLog
deriving DecidableEq, Repr

/-- The zero value `RoundLog{}` used as the 0-index placeholder in `New`. -/
def emptyRoundLog : RoundLog :=
  ⟨[], [], 0, 0, 0, 0, 0, false, []⟩

/-- Go `GameState`.  `Players` becomes `player0`/`player1`; the confirmation
map `RoundFinishedConfirmedPlayerIDs` becomes the list of ids set to true
(`Run` only inserts an id after checking it is absent, so the list mirrors
the map's key set and its length the map's length). -/
structure GameState where
  roundNumber : Nat
  turnPlayerID : Int
  turnOpponentPlayerID : Int
  player0 : Player
  player1 : Player
  drawPile : List Card
  discardPile : List Card
  possibleActions : List ActionDoc
  isRoundFinished : Bool
  isGameEnded : Bool
  winnerPlayerID : Int
  loserPlayerID : Int
  roundsLog : List RoundLog
  confirmedIDs : List Int
  ruleMaxPoints : Int
  currentRoundClosedByPlayerID : Int
  hasDrawnCard : Bool
deriving DecidableEq, Repr

/-- Access `g.Players[pid]` for the resident ids 0 and 1 (any other id is a
nil map entry in Go). -/
def getPlayer (g : GameState) (pid : Int) : Player :=
  if pid = 0 then g.player0 else g.player1

/-- Write `g.Players[pid]` for the resident ids 0 and 1. -/
def setPlayer (g : GameState) (pid : Int) (p : Player) : GameState :=
  if pid = 0 then { g with player0 := p } else { g with player1 := p }

/-- Go `GameState.OpponentOf`: the resident player id different from `pid`
(the source scans the map keys `{0, 1}` for one different from `pid`). -/
def opponentOf (pid : Int) : Int :=
  if pid = 0 then 1 else 0

/-- Go `GameState.CanClose`: round not finished, exactly 7 cards in the hand
(a nil hand, here the empty list, fails this test) and at most one card left
uncovered by the hand's valid groups. -/
def canClose (g : GameState) (pid : Int) : Bool :=
  if g.isRoundFinished then false
  else
    let hand := (getPlayer g pid).hand
    if hand.length ≠ 7 then false
    else
      (hand.filter (fun c => ¬ grouped (validGroups hand) c)).length ≤ 1

/-- Set `WasChinchon` on `RoundsLog[idx]` (out-of-range indices are left
unchanged; the Go source would panic there, and the theorems touching the
log restrict themselves to in-range round numbers). -/
def setWasChinchon (logs : List RoundLog) (idx : Nat) : List RoundLog :=
  match logs.get? idx with
  | some rl => logs.set idx { rl with wasChinchon := true }
  | none => logs

/-- The final `RoundsLog[RoundNumber]` update of `CloseRound`. -/
def setRoundResult (logs : List RoundLog) (idx : Nat)
    (winner loser p0 p1 closedBy : Int) : List RoundLog :=
  match logs.get? idx with
  | some rl =>
      logs.set idx { rl with
        winnerPlayerID := winner, loserPlayerID := loser,
        penaltyPoints0 := p0, penaltyPoints1 := p1,
        closedByPlayerID := closedBy }
  | none => logs

/-- Add `points` to the score of player `pid`. -/
def addScore (g : GameState) (pid : Int) (points : Int) : GameState :=
  let p := getPlayer g pid
  setPlayer g pid { p with score := p.score + points }

/-- Go `GameState.CloseRound`.  The player loop runs 0 then 1 (the source
iterates the two-entry map in unspecified order); a chinchón hand ends the
game immediately and skips all scoring.  Otherwise the round winner is the
player with strictly lower penalty (tie: both -1); when the closing player
won, only the opponent's penalty (plus a 10-point bonus when the closer's
penalty is 0) is awarded, and otherwise both players receive their own
penalty. -/
def closeRound (g : GameState) (closingPlayerID : Int) : GameState :=
  let g := { g with isRoundFinished := true,
                    currentRoundClosedByPlayerID := closingPlayerID }
  if isChinchon g.player0.hand then
    { g with isGameEnded := true, winnerPlayerID := 0,
             loserPlayerID := opponentOf 0,
             roundsLog := setWasChinchon g.roundsLog g.roundNumber }
  else if isChinchon g.player1.hand then
    { g with isGameEnded := true, winnerPlayerID := 1,
             loserPlayerID := opponentOf 1,
             roundsLog := setWasChinchon g.roundsLog g.roundNumber }
  else
    let p0 := playerPenalty g.player0.hand
    let p1 := playerPenalty g.player1.hand
    let winner : Int := if p0 < p1 then 0 else if p1 < p0 then 1 else -1
    let loser : Int := if p0 < p1 then 1 else if p1 < p0 then 0 else -1
    let g :=
      if closingPlayerID ≠ -1 ∧ winner = closingPlayerID then
        let oppID := opponentOf closingPlayerID
        let closerPenalty := if closingPlayerID = 0 then p0 else p1
        let oppPenalty := if oppID = 0 then p0 else p1
        addScore g oppID (oppPenalty + (if closerPenalty = 0 then 10 else 0))
      else
        addScore (addScore g 0 p0) 1 p1
    { g with roundsLog :=
        (setRoundResult g.roundsLog g.roundNumber winner loser p0 p1
          closingPlayerID) }

/-- Go `IsPossible` of each action variant (`chinchon/actions.go`). -/
def isPossible (a : Action) (g : GameState) : Bool :=
  match a with
  | .drawFromDeck pid =>
      if g.isRoundFinished || g.isGameEnded then false
      else if pid ≠ g.turnPlayerID then false
      else if g.hasDrawnCard then false
      else ¬ g.drawPile.isEmpty
  | .drawFromDiscard pid =>
      if g.isRoundFinished || g.isGameEnded then false
      else if pid ≠ g.turnPlayerID then false
      else if g.hasDrawnCard then false
      else decide (0 < g.discardPile.length)
  | .discardCard c pid =>
      if g.isRoundFinished || g.isGameEnded then false
      else if pid ≠ g.turnPlayerID then false
      else if ¬ g.hasDrawnCard then false
      else hasCard (getPlayer g pid).hand c
  | .close pid =>
      if g.isRoundFinished || g.isGameEnded then false
      else if pid ≠ g.turnPlayerID then false
      else if ¬ g.hasDrawnCard then false
      else canClose g pid
  | .confirmRoundFinished pid =>
      if !g.isRoundFinished || g.isGameEnded then false
      else ¬ g.confirmedIDs.contains pid

/-- Go `YieldsTurn` of each variant: draws and confirmations keep the turn,
discarding and closing yield it. -/
def yieldsTurn (a : Action) : Bool :=
  match a with
  | .drawFromDeck _ => false
  | .drawFromDiscard _ => false
  | .discardCard _ _ => true
  | .close _ => true
  | .confirmRoundFinished _ => false

/-- The error values the engine returns (`errors.go` constants plus the
internal `Run` errors). -/
inductive GoError where
  | actionNotPossible
  | deckEmpty
  | discardPileEmpty
  | cardNotInHand
  | gameIsEnded
  | notYourTurn
deriving DecidableEq, Repr

/-- Go `Run` of each action variant, including the internal error branches
that follow the re-checked precondition (`deck is empty`, `discard pile is
empty`, `card not in hand`). -/
def Action.run (a : Action) (g : GameState) : Except GoError GameState :=
  match a with
  | .drawFromDeck pid =>
      if ¬ isPossible a g then .error .actionNotPossible
      else
        match g.drawPile with
        | [] => .error .deckEmpty
        | card :: rest =>
            let g1 := { g with drawPile := rest }
            let p := getPlayer g1 pid
            let g2 := setPlayer g1 pid { p with hand := p.hand ++ [card] }
            .ok { g2 with hasDrawnCard := true }
  | .drawFromDiscard pid =>
      if ¬ isPossible a g then .error .actionNotPossible
      else
        match g.discardPile.getLast? with
        | none => .error .discardPileEmpty
        | some card =>
            let g1 := { g with discardPile := g.discardPile.dropLast }
            let p := getPlayer g1 pid
            let g2 := setPlayer g1 pid { p with hand := p.hand ++ [card] }
            .ok { g2 with hasDrawnCard := true }
  | .discardCard c pid =>
      if ¬ isPossible a g then .error .actionNotPossible
      else
        match removeCard (getPlayer g pid).hand c with
        | none => .error .cardNotInHand
        | some newHand =>
            let p := getPlayer g pid
            let g1 := setPlayer g pid { p with hand := newHand }
            .ok { g1 with discardPile := g1.discardPile ++ [c] }
  | .close pid =>
      if ¬ isPossible a g then .error .actionNotPossible
      else .ok (closeRound g pid)
  | .confirmRoundFinished pid =>
      if ¬ isPossible a g then .error .actionNotPossible
      else .ok { g with confirmedIDs := g.confirmedIDs ++ [pid] }

/-- The candidate list built at the top of `CalculatePossibleActions`, before
the `IsPossible`/priority filtering. -/
def candidateActions (g : GameState) : List Action :=
  (if ¬ g.hasDrawnCard ∧ ¬ g.isRoundFinished then
      [.drawFromDeck g.turnPlayerID, .drawFromDiscard g.turnPlayerID]
    else [])
  ++ (if g.hasDrawnCard ∧ ¬ g.isRoundFinished then
      (getPlayer g g.turnPlayerID).hand.map
        (fun c => .discardCard c g.turnPlayerID)
    else [])
  ++ (if canClose g g.turnPlayerID ∧ g.hasDrawnCard then
      [.close g.turnPlayerID]
    else [])
  ++ [.confirmRoundFinished g.turnPlayerID,
      .confirmRoundFinished g.turnOpponentPlayerID]

/-- One iteration of the filtering loop of `CalculatePossibleActions`: drop
impossible candidates, then apply the running-priority bookkeeping (`Enrich`
is a no-op for every variant and is omitted). -/
def sweepStep (g : GameState) (acc : List Action × Int) (a : Action) :
    List Action × Int :=
  if ¬ isPossible a g then acc
  else if a.priority < acc.2 then acc
  else if acc.2 < a.priority ∧ ¬ a.allowLowerPriority then ([a], a.priority)
  else (acc.1 ++ [a], acc.2)

/-- The filtering loop of `CalculatePossibleActions`, starting from an empty
accumulator and priority threshold 0. -/
def prioritySweep (g : GameState) (actions : List Action) : List Action :=
  (actions.foldl (sweepStep g) ([], 0)).1

/-- Go `GameState.CalculatePossibleActions`. -/
def calculatePossibleActions (g : GameState) : List Action :=
  prioritySweep g (candidateActions g)

/-- Go `GameState.countActionsOfTurnPlayer`. -/
def countActionsOfTurnPlayer (g : GameState) : Nat :=
  ((calculatePossibleActions g).filter
    (fun a => a.playerID = g.turnPlayerID)).length

/-- Go `GameState.changeTurn`. -/
def changeTurn (g : GameState) : GameState :=
  { g with turnPlayerID := g.turnOpponentPlayerID,
           turnOpponentPlayerID := g.turnPlayerID,
           hasDrawnCard := false }

/-- Go `deck.dealHand`: repeatedly remove the front card, 7 times (stopping
early on an empty pile), returning the hand and the remaining pile. -/
def dealHand (cards : List Card) : List Card × List Card :=
  (cards.take 7, cards.drop 7)

/-- Append an entry to `RoundsLog[idx].ActionsLog` (out-of-range indices are
left unchanged, see `setWasChinchon`). -/
def appendActionLog (logs : List RoundLog) (idx : Nat) (entry : ActionLog) :
    List RoundLog :=
  match logs.get? idx with
  | some rl => logs.set idx { rl with actionsLog := rl.actionsLog ++ [entry] }
  | none => logs

/-- Go `GameState.startNewRound`, with the result of the `shuffle()` call
passed in as `freshDeck`: bump the round number, pick the starting player
(player 0 in round 1, otherwise alternate), deal 7 cards each, seed the
discard pile with one card, reset the per-round flags, append a new round
log, and store the recomputed legal moves. -/
def startNewRound (freshDeck : List Card) (g : GameState) : GameState :=
  let g := { g with drawPile := freshDeck, roundNumber := g.roundNumber + 1 }
  let turn := if g.roundNumber = 1 then 0 else opponentOf g.turnPlayerID
  let g := { g with turnPlayerID := turn, turnOpponentPlayerID := opponentOf turn }
  let dealt0 := dealHand g.drawPile
  let dealt1 := dealHand dealt0.2
  let g := { g with player0 := { g.player0 with hand := dealt0.1 },
                    player1 := { g.player1 with hand := dealt1.1 },
                    drawPile := dealt1.2 }
  let g :=
    match g.drawPile with
    | [] => g
    | top :: rest => { g with discardPile := [top], drawPile := rest }
  let g := { g with isRoundFinished := false,
                    currentRoundClosedByPlayerID := -1,
                    confirmedIDs := [], hasDrawnCard := false }
  let g := { g with roundsLog := g.roundsLog ++ [({
      handsDealt0 := g.player0.hand, handsDealt1 := g.player1.hand,
      winnerPlayerID := -1, loserPlayerID := -1,
      penaltyPoints0 := 0, penaltyPoints1 := 0,
      closedByPlayerID := -1, wasChinchon := false,
      actionsLog := [] } : RoundLog)] }
  { g with possibleActions := (calculatePossibleActions g).map serializeAction }

/-- Go `New` with the effect of the options folded into `maxPoints`
(`WithMaxPoints`; the default is 100) and the shuffle of the first
`startNewRound` passed as `freshDeck`.  The deck built by `newDeck()` inside
the literal is immediately replaced by the `shuffle()` call of
`startNewRound`, so it is not modelled separately. -/
def new (maxPoints : Int) (freshDeck : List Card) : GameState :=
  startNewRound freshDeck
    { roundNumber := 0, turnPlayerID := 0, turnOpponentPlayerID := 0,
      player0 := ⟨[], 0⟩, player1 := ⟨[], 0⟩,
      drawPile := [], discardPile := [], possibleActions := [],
      isRoundFinished := false, isGameEnded := false,
      winnerPlayerID := -1, loserPlayerID := -1,
      roundsLog := [emptyRoundLog],
      confirmedIDs := [], ruleMaxPoints := maxPoints,
      currentRoundClosedByPlayerID := -1, hasDrawnCard := false }

/-- The end-of-game score check of `RunAction` (players scanned 0 then 1). -/
def endGameByScore (g : GameState) : GameState :=
  let g :=
    if g.ruleMaxPoints ≤ g.player0.score then
      { g with isGameEnded := true, loserPlayerID := 0,
               winnerPlayerID := opponentOf 0 }
    else g
  if g.ruleMaxPoints ≤ g.player1.score then
    { g with isGameEnded := true, loserPlayerID := 1,
             winnerPlayerID := opponentOf 1 }
  else g

/-- The action-log append of `RunAction`: every action except a confirmation
is logged against the current round keyed by the (pre-switch) turn
player. -/
def logStep (a : Action) (g1 : GameState) : GameState :=
  if a.name = CONFIRM_ROUND_FINISHED then g1
  else { g1 with roundsLog :=
      (appendActionLog g1.roundsLog g1.roundNumber
        ⟨g1.turnPlayerID, serializeAction a⟩) }

/-- Transition 2 of `RunAction`: while the round is active, an action that
yields the turn swaps the turn ids and resets the drawn flag. -/
def yieldStep (a : Action) (g : GameState) : GameState :=
  if ¬ g.isGameEnded ∧ ¬ g.isRoundFinished ∧ yieldsTurn a then
    { g with turnPlayerID := g.turnOpponentPlayerID,
             turnOpponentPlayerID := g.turnPlayerID,
             hasDrawnCard := false }
  else g

/-- Transition 3 of `RunAction`: with the round finished and exactly one
recorded confirmation belonging to the current turn player, the turn
swaps. -/
def confirmSwapStep (g : GameState) : GameState :=
  if ¬ g.isGameEnded ∧ g.isRoundFinished ∧ g.confirmedIDs.length = 1 ∧
      g.confirmedIDs.contains g.turnPlayerID then
    changeTurn g
  else g

/-- Transitions 5–6 of `RunAction`: recompute the legal moves; when the turn
player has none, swap the turn once more and recompute again, then store the
serialized result. -/
def recomputeStep (g5 : GameState) : GameState :=
  if countActionsOfTurnPlayer g5 = 0 then
    { changeTurn g5 with possibleActions :=
        (calculatePossibleActions (changeTurn g5)).map serializeAction }
  else
    { g5 with possibleActions :=
        (calculatePossibleActions g5).map serializeAction }

/-- The post-effect part of `RunAction` applied to the state `g1` the
action's `Run` produced: log the action, then either start a new round
(round finished and both confirmations in) or run the turn-yield,
confirmation-swap, score-check and recompute transitions in order. -/
def postProcess (freshDeck : List Card) (a : Action) (g1 : GameState) :
    GameState :=
  let g2 := logStep a g1
  if ¬ g2.isGameEnded ∧ g2.isRoundFinished ∧ g2.confirmedIDs.length = 2 then
    startNewRound freshDeck g2
  else recomputeStep (endGameByScore (confirmSwapStep (yieldStep a g2)))

/-- Go `GameState.RunAction`, with the shuffle a potential `startNewRound`
would perform passed in as `freshDeck`.  Mirrors the source order: the three
precondition checks, the action's own `Run`, then the post-effect
transitions (`postProcess`). -/
def runAction (freshDeck : List Card) (a : Action) (g : GameState) :
    Except GoError GameState :=
  if g.isGameEnded then .error .gameIsEnded
  else if ¬ g.isRoundFinished ∧ a.playerID ≠ g.turnPlayerID then
    .error .notYourTurn
  else if ¬ isPossible a g then .error .actionNotPossible
  else
    match a.run g with
    | .error e => .error e
    | .ok g1 => .ok (postProcess freshDeck a g1)

/-- Go `ClientGameState`. -/
structure ClientGameState where
  roundNumber : Nat
  turnPlayerID : Int
  youPlayerID : Int
  themPlayerID : Int
  yourScore : Int
  theirScore : Int
  yourHand : List Card
  theirHandSize : Nat
  topDiscardCard : Option Card
  drawPileSize : Nat
  possibleActions : List ActionDoc
  isGameEnded : Bool
  isRoundFinished : Bool
  winnerPlayerID : Int
  loserPlayerID : Int
  lastActionLog : Option ActionLog
  ruleMaxPoints : Int
  hasDrawnCard : Bool
deriving DecidableEq, Repr

/-- Go `GameState.ToClientGameState`: copy the shared fields, expose the
viewer's hand and only the size of the opponent's, keep only the viewer's
own legal moves, and surface the most recent action-log entry of the current
round, if any. -/
def toClientGameState (g : GameState) (youPlayerID : Int) : ClientGameState :=
  let themPlayerID := opponentOf youPlayerID
  let filtered := (calculatePossibleActions g).filter
    (fun a => a.playerID = youPlayerID)
  { roundNumber := g.roundNumber,
    turnPlayerID := g.turnPlayerID,
    youPlayerID := youPlayerID,
    themPlayerID := themPlayerID,
    yourScore := (getPlayer g youPlayerID).score,
    theirScore := (getPlayer g themPlayerID).score,
    yourHand := (getPlayer g youPlayerID).hand,
    theirHandSize := (getPlayer g themPlayerID).hand.length,
    topDiscardCard := g.discardPile.getLast?,
    drawPileSize := g.drawPile.length,
    possibleActions := filtered.map serializeAction,
    isGameEnded := g.isGameEnded,
    isRoundFinished := g.isRoundFinished,
    winnerPlayerID := g.winnerPlayerID,
    loserPlayerID := g.loserPlayerID,
    lastActionLog :=
      match g.roundsLog.get? g.roundNumber with
      | some rl => rl.actionsLog.getLast?
      | none => none,
    ruleMaxPoints := g.ruleMaxPoints,
    hasDrawnCard := g.hasDrawnCard }

/-- The reachable game states: any `New` (over every max-points option value
and every possible shuffle) followed by any sequence of successful
`RunAction` calls, each round start again drawing an arbitrary shuffle. -/
inductive Reachable : GameState → Prop where
  | base (maxPoints : Int) (freshDeck : List Card)
      (hperm : freshDeck.Perm canonicalDeck) :
      Reachable (new maxPoints freshDeck)
  | step (g g' : GameState) (a : Action) (freshDeck : List Card)
      (hperm : freshDeck.Perm canonicalDeck)
      (hg : Reachable g) (hrun : runAction freshDeck a g = .ok g') :
      Reachable g'

/-! ## Basic lemmas about the legal-move computation -/

theorem sweepStep_foldl (g : GameState) (l : List Action) :
    ∀ acc : List Action,
      l.foldl (sweepStep g) (acc, 0) =
        (acc ++ l.filter (fun a => isPossible a g), 0) := by
  induction l with
  | nil => intro acc; simp
  | cons a rest ih =>
      intro acc
      by_cases hip : isPossible a g
      · have hstep : sweepStep g (acc, 0) a = (acc ++ [a], 0) := by
          simp [sweepStep, hip, Action.priority]
        simp [List.foldl_cons, hstep, ih, hip]
      · have hstep : sweepStep g (acc, 0) a = (acc, 0) := by
          simp [sweepStep, hip]
        simp [List.foldl_cons, hstep, ih, hip]

theorem calculatePossibleActions_eq_filter (g : GameState) :
    calculatePossibleActions g =
      (candidateActions g).filter (fun a => isPossible a g) := by
  unfold calculatePossibleActions prioritySweep
  rw [sweepStep_foldl]
  simp

theorem mem_calculatePossibleActions {g : GameState} {a : Action} :
    a ∈ calculatePossibleActions g ↔
      a ∈ candidateActions g ∧ isPossible a g = true := by
  rw [calculatePossibleActions_eq_filter]
  simp [List.mem_filter]

theorem isPossible_of_gameEnded {g : GameState} (h : g.isGameEnded = true)
    (a : Action) : isPossible a g = false := by
  cases a <;> simp [isPossible, h]

theorem calculatePossibleActions_of_ended {g : GameState}
    (h : g.isGameEnded = true) : calculatePossibleActions g = [] := by
  rw [calculatePossibleActions_eq_filter]
  exact List.filter_eq_nil_iff.mpr
    (fun a _ => by simp [isPossible_of_gameEnded h a])

theorem countActionsOfTurnPlayer_of_ended {g : GameState}
    (h : g.isGameEnded = true) : countActionsOfTurnPlayer g = 0 := by
  unfold countActionsOfTurnPlayer
  rw [calculatePossibleActions_of_ended h]
  simp

theorem canClose_of_length_ne {g : GameState} {pid : Int}
    (h : (getPlayer g pid).hand.length ≠ 7) : canClose g pid = false := by
  unfold canClose
  split
  · rfl
  · simp [h]

/-! ## The reachability invariant -/

/-- All cards held by the state: draw pile, discard pile and both hands. -/
def allCards (g : GameState) : List Card :=
  g.drawPile ++ g.discardPile ++ g.player0.hand ++ g.player1.hand

/-- The turn ids are 0 and 1 in one of the two orders. -/
def turnIdsOk (g : GameState) : Prop :=
  (g.turnPlayerID = 0 ∧ g.turnOpponentPlayerID = 1) ∨
    (g.turnPlayerID = 1 ∧ g.turnOpponentPlayerID = 0)

/-- The invariant maintained by `New` and every successful `RunAction`:
well-formed turn ids; the round is never finished (the close action is never
possible, so no round ever ends); the four card collections partition the
canonical 48-card deck; while the game is running the turn player holds 8
cards exactly when a card has been drawn and 7 otherwise, the opponent
always 7, and the discard pile is only empty in the drawn half of a turn;
after the game has ended (reachable only with a non-positive max-points
rule) the drawn flag is always cleared. -/
def WF (g : GameState) : Prop :=
  turnIdsOk g ∧
  g.isRoundFinished = false ∧
  (allCards g).Perm canonicalDeck ∧
  (g.isGameEnded = false →
    ((getPlayer g g.turnPlayerID).hand.length = if g.hasDrawnCard then 8 else 7) ∧
    (getPlayer g g.turnOpponentPlayerID).hand.length = 7 ∧
    (g.hasDrawnCard = false → g.discardPile ≠ [])) ∧
  (g.isGameEnded = true → g.hasDrawnCard = false)

theorem canonicalDeck_length : canonicalDeck.length = 48 := by decide

/-- Moving the head of the draw pile to the end of a hand is a permutation. -/
theorem perm_move_head_hand0 (c : Card) (r d h0 h1 : List Card) :
    ((r ++ d ++ (h0 ++ [c]) ++ h1)).Perm ((c :: r) ++ d ++ h0 ++ h1) := by
  refine List.perm_iff_count.mpr (fun b => ?_)
  simp only [List.count_append, List.count_cons, List.count_singleton,
    List.count_nil]
  split_ifs <;> omega

/-- As `perm_move_head_hand0`, for the second hand. -/
theorem perm_move_head_hand1 (c : Card) (r d h0 h1 : List Card) :
    ((r ++ d ++ h0 ++ (h1 ++ [c]))).Perm ((c :: r) ++ d ++ h0 ++ h1) := by
  refine List.perm_iff_count.mpr (fun b => ?_)
  simp only [List.count_append, List.count_cons, List.count_singleton,
    List.count_nil]
  split_ifs <;> omega

/-- Moving the last discard-pile card to the end of a hand is a
permutation. -/
theorem perm_move_last_hand0 (c : Card) (p d h0 h1 : List Card) :
    ((p ++ d ++ (h0 ++ [c]) ++ h1)).Perm ((p ++ (d ++ [c]) ++ h0 ++ h1)) := by
  refine List.perm_iff_count.mpr (fun b => ?_)
  simp only [List.count_append, List.count_cons, List.count_singleton,
    List.count_nil]
  split_ifs <;> omega

/-- As `perm_move_last_hand0`, for the second hand. -/
theorem perm_move_last_hand1 (c : Card) (p d h0 h1 : List Card) :
    ((p ++ d ++ h0 ++ (h1 ++ [c]))).Perm ((p ++ (d ++ [c]) ++ h0 ++ h1)) := by
  refine List.perm_iff_count.mpr (fun b => ?_)
  simp only [List.count_append, List.count_cons, List.count_singleton,
    List.count_nil]
  split_ifs <;> omega

/-- Erasing a held card from the first hand and appending it to the discard
pile is a permutation. -/
theorem perm_erase_hand0 (c : Card) (p d h0 h1 : List Card) (hc : c ∈ h0) :
    ((p ++ (d ++ [c]) ++ h0.erase c ++ h1)).Perm (p ++ d ++ h0 ++ h1) := by
  refine List.perm_iff_count.mpr (fun b => ?_)
  have hcount := List.count_pos_iff.mpr hc
  simp only [List.count_append, List.count_cons, List.count_singleton,
    List.count_nil, List.count_erase]
  split_ifs with hb
  · have hcb : c = b := by simpa using hb
    subst hcb
    omega
  · omega

/-- As `perm_erase_hand0`, for the second hand. -/
theorem perm_erase_hand1 (c : Card) (p d h0 h1 : List Card) (hc : c ∈ h1) :
    ((p ++ (d ++ [c]) ++ h0 ++ h1.erase c)).Perm (p ++ d ++ h0 ++ h1) := by
  refine List.perm_iff_count.mpr (fun b => ?_)
  have hcount := List.count_pos_iff.mpr hc
  simp only [List.count_append, List.count_cons, List.count_singleton,
    List.count_nil, List.count_erase]
  split_ifs with hb
  · have hcb : c = b := by simpa using hb
    subst hcb
    omega
  · omega

theorem wf_new (maxPoints : Int) (fd : List Card)
    (hperm : fd.Perm canonicalDeck) : WF (new maxPoints fd) := by
  have hlen : fd.length = 48 := by
    have h := hperm.length_eq
    rwa [canonicalDeck_length] at h
  obtain ⟨top, rest, hsplit⟩ :
      ∃ t r, List.drop 7 (List.drop 7 fd) = t :: r := by
    cases h : List.drop 7 (List.drop 7 fd) with
    | nil =>
        exfalso
        have hl : (List.drop 7 (List.drop 7 fd)).length = 34 := by
          simp [hlen]
        rw [h] at hl
        simp at hl
    | cons t r => exact ⟨t, r, rfl⟩
  have h2 : fd.drop 7 = (fd.drop 7).take 7 ++ (top :: rest) := by
    rw [← hsplit]
    exact (List.take_append_drop 7 (fd.drop 7)).symm
  have hfd : fd = fd.take 7 ++ ((fd.drop 7).take 7 ++ (top :: rest)) := by
    rw [← h2]
    exact (List.take_append_drop 7 fd).symm
  have ht7 : (fd.take 7).length = 7 := by
    simp [hlen]
  have ht7' : ((fd.drop 7).take 7).length = 7 := by
    simp [hlen]
  unfold new startNewRound dealHand
  simp only [hsplit]
  refine ⟨?_, rfl, ?_, ?_, ?_⟩
  · left; exact ⟨rfl, rfl⟩
  · show (rest ++ [top] ++ fd.take 7 ++ (fd.drop 7).take 7).Perm canonicalDeck
    refine List.Perm.trans ?_ hperm
    conv_rhs => rw [hfd]
    refine List.perm_iff_count.mpr (fun b => ?_)
    simp only [List.count_append, List.count_cons, List.count_singleton,
      List.count_nil]
    split_ifs <;> omega
  · intro _
    refine ⟨?_, ?_, ?_⟩
    · show (getPlayer _ 0).hand.length = _
      simp [getPlayer, ht7]
    · show (getPlayer _ (opponentOf 0)).hand.length = 7
      simp [getPlayer, opponentOf, ht7']
    · intro _
      simp
  · intro h
    exact absurd h (by simp)

theorem isPossible_close_of_wf {g : GameState} (hWF : WF g) (pid : Int) :
    isPossible (.close pid) g = false := by
  obtain ⟨hids, hrf, hperm, hactive, hended⟩ := hWF
  by_cases hge : g.isGameEnded = true
  · simp [isPossible, hge]
  · have hge' : g.isGameEnded = false := by
      simpa using hge
    by_cases hpid : pid = g.turnPlayerID
    · by_cases hd : g.hasDrawnCard = true
      · have h8 : (getPlayer g g.turnPlayerID).hand.length = 8 := by
          have h := (hactive hge').1
          rwa [hd, if_pos rfl] at h
        have hcc : canClose g pid = false := by
          apply canClose_of_length_ne
          rw [hpid, h8]
          omega
        simp [isPossible, hge', hrf, hd, hcc]
      · have hd' : g.hasDrawnCard = false := by
          simpa using hd
        simp [isPossible, hge', hrf, hd']
    · simp [isPossible, hpid]

theorem isPossible_confirm_of_wf {g : GameState} (hWF : WF g) (pid : Int) :
    isPossible (.confirmRoundFinished pid) g = false := by
  obtain ⟨hids, hrf, hperm, hactive, hended⟩ := hWF
  simp [isPossible, hrf]

theorem countActions_ne_zero_discard {g : GameState}
    (hge : g.isGameEnded = false) (hrf : g.isRoundFinished = false)
    (hd : g.hasDrawnCard = true)
    (hh : (getPlayer g g.turnPlayerID).hand ≠ []) :
    countActionsOfTurnPlayer g ≠ 0 := by
  obtain ⟨c, t, hch⟩ : ∃ c t, (getPlayer g g.turnPlayerID).hand = c :: t := by
    cases hc : (getPlayer g g.turnPlayerID).hand with
    | nil => exact absurd hc hh
    | cons c t => exact ⟨c, t, rfl⟩
  have hmemcand : Action.discardCard c g.turnPlayerID ∈ candidateActions g := by
    unfold candidateActions
    have hm : Action.discardCard c g.turnPlayerID ∈
        (getPlayer g g.turnPlayerID).hand.map
          (fun d => Action.discardCard d g.turnPlayerID) := by
      rw [hch]; simp
    simp only [List.mem_append]
    left; left; right
    simpa [hd, hrf] using hm
  have hposs : isPossible (.discardCard c g.turnPlayerID) g = true := by
    simp [isPossible, hge, hrf, hd, hasCard, hch]
  have hmem : Action.discardCard c g.turnPlayerID ∈ calculatePossibleActions g :=
    mem_calculatePossibleActions.mpr ⟨hmemcand, hposs⟩
  unfold countActionsOfTurnPlayer
  intro h0
  rw [List.length_eq_zero] at h0
  have hmf : Action.discardCard c g.turnPlayerID ∈
      (calculatePossibleActions g).filter
        (fun a => a.playerID = g.turnPlayerID) :=
    List.mem_filter.mpr ⟨hmem, by simp [Action.playerID]⟩
  rw [h0] at hmf
  simp at hmf

theorem countActions_ne_zero_draw {g : GameState}
    (hge : g.isGameEnded = false) (hrf : g.isRoundFinished = false)
    (hd : g.hasDrawnCard = false) (hdp : g.discardPile ≠ []) :
    countActionsOfTurnPlayer g ≠ 0 := by
  have hmemcand : Action.drawFromDiscard g.turnPlayerID ∈ candidateActions g := by
    unfold candidateActions
    simp only [List.mem_append]
    left; left; left
    simp [hd, hrf]
  have hposs : isPossible (.drawFromDiscard g.turnPlayerID) g = true := by
    have hl : 0 < g.discardPile.length := List.length_pos.mpr hdp
    simp [isPossible, hge, hrf, hd, hl]
  have hmem : Action.drawFromDiscard g.turnPlayerID ∈ calculatePossibleActions g :=
    mem_calculatePossibleActions.mpr ⟨hmemcand, hposs⟩
  unfold countActionsOfTurnPlayer
  intro h0
  rw [List.length_eq_zero] at h0
  have hmf : Action.drawFromDiscard g.turnPlayerID ∈
      (calculatePossibleActions g).filter
        (fun a => a.playerID = g.turnPlayerID) :=
    List.mem_filter.mpr ⟨hmem, by simp [Action.playerID]⟩
  rw [h0] at hmf
  simp at hmf

theorem endGameByScore_shape (g : GameState) :
    endGameByScore g = g ∨
      ∃ w l, endGameByScore g =
        { g with isGameEnded := true, winnerPlayerID := w, loserPlayerID := l } := by
  simp only [endGameByScore]
  split_ifs with h1 h2 h3
  · right; exact ⟨opponentOf 1, 1, rfl⟩
  · right; exact ⟨opponentOf 0, 0, rfl⟩
  · right; exact ⟨opponentOf 1, 1, rfl⟩
  · left; rfl

theorem logStep_shape (a : Action) (g1 : GameState) :
    ∃ L, logStep a g1 = { g1 with roundsLog := L } := by
  unfold logStep
  split_ifs
  · exact ⟨g1.roundsLog, rfl⟩
  · exact ⟨_, rfl⟩

theorem wf_endRecompute (Z : GameState)
    (hids : turnIdsOk Z) (hrf : Z.isRoundFinished = false)
    (hperm : (allCards Z).Perm canonicalDeck)
    (hge : Z.isGameEnded = false)
    (hlt : (getPlayer Z Z.turnPlayerID).hand.length =
      if Z.hasDrawnCard then 8 else 7)
    (hlo : (getPlayer Z Z.turnOpponentPlayerID).hand.length = 7)
    (hdisc : Z.hasDrawnCard = false → Z.discardPile ≠ []) :
    WF (recomputeStep (endGameByScore Z)) := by
  rcases endGameByScore_shape Z with hE | ⟨w, l, hE⟩ <;> rw [hE]
  · have hcnt : countActionsOfTurnPlayer Z ≠ 0 := by
      by_cases hd : Z.hasDrawnCard = true
      · apply countActions_ne_zero_discard hge hrf hd
        rw [hd, if_pos rfl] at hlt
        intro hnil
        rw [hnil] at hlt
        simp at hlt
      · have hd' : Z.hasDrawnCard = false := by simpa using hd
        exact countActions_ne_zero_draw hge hrf hd' (hdisc hd')
    unfold recomputeStep
    rw [if_neg hcnt]
    exact ⟨hids, hrf, hperm, fun _ => ⟨hlt, hlo, hdisc⟩,
      fun h => absurd h (by simp [hge])⟩
  · have hend : ({ Z with
        isGameEnded := true, winnerPlayerID := w, loserPlayerID := l } :
        GameState).isGameEnded = true := rfl
    unfold recomputeStep
    rw [if_pos (countActionsOfTurnPlayer_of_ended hend)]
    refine ⟨?_, hrf, hperm, ?_, fun _ => rfl⟩
    · rcases hids with ⟨h1, h2⟩ | ⟨h1, h2⟩
      · right; exact ⟨h2, h1⟩
      · left; exact ⟨h2, h1⟩
    · intro h
      exact absurd h (by simp [changeTurn])

theorem wf_postProcess_noYield (fd : List Card) (a : Action) (X : GameState)
    (hids : turnIdsOk X) (hrf : X.isRoundFinished = false)
    (hperm : (allCards X).Perm canonicalDeck)
    (hge : X.isGameEnded = false)
    (hdrawn : X.hasDrawnCard = true)
    (hyield : yieldsTurn a = false)
    (hlt : (getPlayer X X.turnPlayerID).hand.length = 8)
    (hlo : (getPlayer X X.turnOpponentPlayerID).hand.length = 7) :
    WF (postProcess fd a X) := by
  unfold postProcess
  obtain ⟨L, hL⟩ := logStep_shape a X
  rw [hL]
  rw [if_neg (by simp [hrf])]
  have hy : yieldStep a { X with roundsLog := L } = { X with roundsLog := L } := by
    unfold yieldStep
    rw [if_neg (by simp [hyield])]
  rw [hy]
  have hc : confirmSwapStep { X with roundsLog := L } =
      { X with roundsLog := L } := by
    unfold confirmSwapStep
    rw [if_neg (by simp [hrf])]
  rw [hc]
  refine wf_endRecompute _ hids hrf hperm hge ?_ hlo ?_
  · show (getPlayer X X.turnPlayerID).hand.length = if X.hasDrawnCard then 8 else 7
    rw [hdrawn, if_pos rfl, hlt]
  · intro h
    exact absurd (h.symm.trans hdrawn) (by simp)

theorem wf_postProcess_yield (fd : List Card) (a : Action) (X : GameState)
    (hids : turnIdsOk X) (hrf : X.isRoundFinished = false)
    (hperm : (allCards X).Perm canonicalDeck)
    (hge : X.isGameEnded = false)
    (hyield : yieldsTurn a = true)
    (hlt : (getPlayer X X.turnPlayerID).hand.length = 7)
    (hlo : (getPlayer X X.turnOpponentPlayerID).hand.length = 7)
    (hdp : X.discardPile ≠ []) :
    WF (postProcess fd a X) := by
  unfold postProcess
  obtain ⟨L, hL⟩ := logStep_shape a X
  rw [hL]
  rw [if_neg (by simp [hrf])]
  have hy : yieldStep a { X with roundsLog := L } =
      { X with
        roundsLog := L, turnPlayerID := X.turnOpponentPlayerID,
        turnOpponentPlayerID := X.turnPlayerID, hasDrawnCard := false } := by
    unfold yieldStep
    rw [if_pos (by simp [hge, hrf, hyield])]
  rw [hy]
  have hc : confirmSwapStep { X with
        roundsLog := L, turnPlayerID := X.turnOpponentPlayerID,
        turnOpponentPlayerID := X.turnPlayerID, hasDrawnCard := false } =
      { X with
        roundsLog := L, turnPlayerID := X.turnOpponentPlayerID,
        turnOpponentPlayerID := X.turnPlayerID, hasDrawnCard := false } := by
    unfold confirmSwapStep
    rw [if_neg (by simp [hrf])]
  rw [hc]
  refine wf_endRecompute _ ?_ hrf hperm hge ?_ hlt ?_
  · rcases hids with ⟨h1, h2⟩ | ⟨h1, h2⟩
    · right; exact ⟨h2, h1⟩
    · left; exact ⟨h2, h1⟩
  · show (getPlayer X X.turnOpponentPlayerID).hand.length =
      if (false : Bool) then 8 else 7
    simpa using hlo
  · intro _
    exact hdp

theorem wf_step {fd : List Card} {a : Action} {g g' : GameState}
    (hWF : WF g) (hrun : runAction fd a g = .ok g') : WF g' := by
  obtain ⟨hids, hrf, hperm, hactive, hended⟩ := hWF
  by_cases hge : g.isGameEnded = true
  · rw [runAction, if_pos hge] at hrun
    exact absurd hrun (by simp)
  have hge' : g.isGameEnded = false := by simpa using hge
  rw [runAction, if_neg (by simp [hge'])] at hrun
  by_cases hpid : a.playerID = g.turnPlayerID
  case neg =>
    rw [if_pos (by simp [hrf, hpid])] at hrun
    exact absurd hrun (by simp)
  by_cases hip : isPossible a g = true
  case neg =>
    rw [if_neg (by simp [hpid]), if_pos (by simpa using hip)] at hrun
    exact absurd hrun (by simp)
  rw [if_neg (by simp [hpid]), if_neg (by simp [hip])] at hrun
  obtain ⟨hlt, hlo, hdisc⟩ := hactive hge'
  cases a with
  | close pid =>
      rw [isPossible_close_of_wf
        ⟨hids, hrf, hperm, fun _ => ⟨hlt, hlo, hdisc⟩, hended⟩ pid] at hip
      exact absurd hip (by simp)
  | confirmRoundFinished pid =>
      exact absurd hip (by simp [isPossible, hrf])
  | drawFromDeck pid =>
      simp only [Action.playerID] at hpid
      have hd' : g.hasDrawnCard = false := by
        by_contra hcon
        simp [isPossible,
          (by simpa using hcon : g.hasDrawnCard = true)] at hip
      obtain ⟨c, rest, hdp⟩ : ∃ c r, g.drawPile = c :: r := by
        cases hq : g.drawPile with
        | nil => simp [isPossible, hge', hrf, hpid, hd', hq] at hip
        | cons c r => exact ⟨c, r, rfl⟩
      have hp : ((c :: rest) ++ g.discardPile ++ g.player0.hand ++
          g.player1.hand).Perm canonicalDeck := by
        rw [← hdp]
        exact hperm
      rcases hids with ⟨ht, ho⟩ | ⟨ht, ho⟩
      · rw [ht] at hpid
        subst hpid
        have hl0 : g.player0.hand.length = 7 := by
          rw [ht, hd'] at hlt
          simpa [getPlayer] using hlt
        have hl1 : g.player1.hand.length = 7 := by
          rw [ho] at hlo
          simpa [getPlayer] using hlo
        simp only [Action.run, hip, hdp, getPlayer, setPlayer,
          not_true_eq_false, if_false, if_pos rfl,
          reduceCtorEq] at hrun
        rw [Except.ok.injEq] at hrun
        subst hrun
        refine wf_postProcess_noYield fd _ _ ?_ hrf ?_ hge' rfl rfl ?_ ?_
        · exact Or.inl ⟨ht, ho⟩
        · exact (perm_move_head_hand0 c rest g.discardPile g.player0.hand
            g.player1.hand).trans hp
        · simp [getPlayer, ht, hl0]
        · simp [getPlayer, ho, hl1]
      · rw [ht] at hpid
        subst hpid
        have hl1 : g.player1.hand.length = 7 := by
          rw [ht, hd'] at hlt
          simpa [getPlayer] using hlt
        have hl0 : g.player0.hand.length = 7 := by
          rw [ho] at hlo
          simpa [getPlayer] using hlo
        simp only [Action.run, hip, hdp, getPlayer, setPlayer,
          not_true_eq_false, if_false, reduceCtorEq,
          if_neg (by decide : ¬ ((1 : Int) = 0))] at hrun
        rw [Except.ok.injEq] at hrun
        subst hrun
        refine wf_postProcess_noYield fd _ _ ?_ hrf ?_ hge' rfl rfl ?_ ?_
        · exact Or.inr ⟨ht, ho⟩
        · exact (perm_move_head_hand1 c rest g.discardPile g.player0.hand
            g.player1.hand).trans hp
        · simp [getPlayer, ht, hl1]
        · simp [getPlayer, ho, hl0]
  | drawFromDiscard pid =>
      simp only [Action.playerID] at hpid
      have hd' : g.hasDrawnCard = false := by
        by_contra hcon
        simp [isPossible,
          (by simpa using hcon : g.hasDrawnCard = true)] at hip
      have hl : 0 < g.discardPile.length := by
        simpa [isPossible, hge', hrf, hpid, hd'] using hip
      obtain ⟨c, hlast⟩ : ∃ c, g.discardPile.getLast? = some c := by
        cases hq : g.discardPile.getLast? with
        | none =>
            rw [List.getLast?_eq_none_iff] at hq
            rw [hq] at hl
            simp at hl
        | some c => exact ⟨c, rfl⟩
      have hsplit : g.discardPile = g.discardPile.dropLast ++ [c] := by
        obtain ⟨ys, hys⟩ := List.getLast?_eq_some_iff.mp hlast
        rw [hys, List.dropLast_concat]
      have hp : (g.drawPile ++ (g.discardPile.dropLast ++ [c]) ++
          g.player0.hand ++ g.player1.hand).Perm canonicalDeck := by
        rw [← hsplit]
        exact hperm
      rcases hids with ⟨ht, ho⟩ | ⟨ht, ho⟩
      · rw [ht] at hpid
        subst hpid
        have hl0 : g.player0.hand.length = 7 := by
          rw [ht, hd'] at hlt
          simpa [getPlayer] using hlt
        have hl1 : g.player1.hand.length = 7 := by
          rw [ho] at hlo
          simpa [getPlayer] using hlo
        simp only [Action.run, hip, hlast, getPlayer, setPlayer,
          not_true_eq_false, if_false, if_pos rfl,
          reduceCtorEq] at hrun
        rw [Except.ok.injEq] at hrun
        subst hrun
        refine wf_postProcess_noYield fd _ _ ?_ hrf ?_ hge' rfl rfl ?_ ?_
        · exact Or.inl ⟨ht, ho⟩
        · exact (perm_move_last_hand0 c g.drawPile g.discardPile.dropLast
            g.player0.hand g.player1.hand).trans hp
        · simp [getPlayer, ht, hl0]
        · simp [getPlayer, ho, hl1]
      · rw [ht] at hpid
        subst hpid
        have hl1 : g.player1.hand.length = 7 := by
          rw [ht, hd'] at hlt
          simpa [getPlayer] using hlt
        have hl0 : g.player0.hand.length = 7 := by
          rw [ho] at hlo
          simpa [getPlayer] using hlo
        simp only [Action.run, hip, hlast, getPlayer, setPlayer,
          not_true_eq_false, if_false, reduceCtorEq,
          if_neg (by decide : ¬ ((1 : Int) = 0))] at hrun
        rw [Except.ok.injEq] at hrun
        subst hrun
        refine wf_postProcess_noYield fd _ _ ?_ hrf ?_ hge' rfl rfl ?_ ?_
        · exact Or.inr ⟨ht, ho⟩
        · exact (perm_move_last_hand1 c g.drawPile g.discardPile.dropLast
            g.player0.hand g.player1.hand).trans hp
        · simp [getPlayer, ht, hl1]
        · simp [getPlayer, ho, hl0]
  | discardCard c pid =>
      simp only [Action.playerID] at hpid
      have hd : g.hasDrawnCard = true := by
        by_contra hcon
        simp [isPossible,
          (by simpa using hcon : g.hasDrawnCard = false)] at hip
      rcases hids with ⟨ht, ho⟩ | ⟨ht, ho⟩
      · rw [ht] at hpid
        subst hpid
        have hl0 : g.player0.hand.length = 8 := by
          rw [ht, hd] at hlt
          simpa [getPlayer] using hlt
        have hl1 : g.player1.hand.length = 7 := by
          rw [ho] at hlo
          simpa [getPlayer] using hlo
        have hmem : c ∈ g.player0.hand := by
          have h := hip
          simp [isPossible, hge', hrf, hd, hasCard, getPlayer, ht] at h
          exact h
        have hcont : g.player0.hand.contains c = true := by
          simpa using hmem
        simp only [Action.run, hip, removeCard, hcont, getPlayer, setPlayer,
          not_true_eq_false, if_false, if_true, if_pos rfl,
          reduceCtorEq] at hrun
        rw [Except.ok.injEq] at hrun
        subst hrun
        refine wf_postProcess_yield fd _ _ ?_ hrf ?_ hge' rfl ?_ ?_ ?_
        · exact Or.inl ⟨ht, ho⟩
        · exact (perm_erase_hand0 c g.drawPile g.discardPile g.player0.hand
            g.player1.hand hmem).trans hperm
        · have he := List.length_erase_add_one hmem
          simp only [getPlayer, ht]
          simp [getPlayer]
          omega
        · simp [getPlayer, ho, hl1]
        · simp
      · rw [ht] at hpid
        subst hpid
        have hl1 : g.player1.hand.length = 8 := by
          rw [ht, hd] at hlt
          simpa [getPlayer] using hlt
        have hl0 : g.player0.hand.length = 7 := by
          rw [ho] at hlo
          simpa [getPlayer] using hlo
        have hmem : c ∈ g.player1.hand := by
          have h := hip
          simp [isPossible, hge', hrf, hd, hasCard, getPlayer, ht] at h
          exact h
        have hcont : g.player1.hand.contains c = true := by
          simpa using hmem
        simp only [Action.run, hip, removeCard, hcont, getPlayer, setPlayer,
          not_true_eq_false, if_false, if_true, reduceCtorEq,
          if_neg (by decide : ¬ ((1 : Int) = 0))] at hrun
        rw [Except.ok.injEq] at hrun
        subst hrun
        refine wf_postProcess_yield fd _ _ ?_ hrf ?_ hge' rfl ?_ ?_ ?_
        · exact Or.inr ⟨ht, ho⟩
        · exact (perm_erase_hand1 c g.drawPile g.discardPile g.player0.hand
            g.player1.hand hmem).trans hperm
        · have he := List.length_erase_add_one hmem
          simp only [getPlayer, ht]
          simp [getPlayer]
          omega
        · simp [getPlayer, ho, hl0]
        · simp

/-- Every reachable state satisfies the invariant. -/
theorem reachable_wf {g : GameState} (h : Reachable g) : WF g := by
  induction h with
  | base maxPoints freshDeck hperm => exact wf_new maxPoints freshDeck hperm
  | step g g' a freshDeck hperm hg hrun ih => exact wf_step ih hrun

/-! ## Claim C7: `IsPossible` implies `Run` succeeds -/

/-- C7: for every action variant and every game state, if the variant's
`IsPossible` returns true then its `Run` succeeds: the internal deck-empty,
discard-pile-empty and card-not-in-hand error branches are unreachable under
the `IsPossible` precondition. -/
theorem claim7_isPossible_run_ok (a : Action) (g : GameState)
    (h : isPossible a g = true) : ∃ g', a.run g = .ok g' := by
  cases hr : a.run g with
  | ok g2 => exact ⟨g2, rfl⟩
  | error e =>
      exfalso
      cases a with
      | drawFromDeck pid =>
          obtain ⟨c, rest, hdp⟩ : ∃ c r, g.drawPile = c :: r := by
            cases hq : g.drawPile with
            | nil => simp [isPossible, hq] at h
            | cons c r => exact ⟨c, r, rfl⟩
          simp [Action.run, h, hdp] at hr
      | drawFromDiscard pid =>
          obtain ⟨c, hlast⟩ : ∃ c, g.discardPile.getLast? = some c := by
            cases hq : g.discardPile.getLast? with
            | none =>
                rw [List.getLast?_eq_none_iff] at hq
                simp [isPossible, hq] at h
            | some c => exact ⟨c, rfl⟩
          simp [Action.run, h, hlast] at hr
      | discardCard c pid =>
          have hmem : c ∈ (getPlayer g pid).hand := by
            have h2 := h
            simp [isPossible, hasCard] at h2
            simpa using h2.2.2.2
          simp [Action.run, h, removeCard, hmem] at hr
      | close pid =>
          simp [Action.run, h] at hr
      | confirmRoundFinished pid =>
          simp [Action.run, h] at hr

/-- Witness for C7 at a concrete input: drawing from the deck in a fresh
game is possible and its `Run` succeeds. -/
theorem claim7_witness :
    ∃ g', (Action.drawFromDeck 0).run (new 100 canonicalDeck) = .ok g' :=
  claim7_isPossible_run_ok (Action.drawFromDeck 0) (new 100 canonicalDeck)
    (by decide)

/-! ## Claim C8: serialization round-trip -/

/-- C8: serializing any action variant and deserializing it yields the same
action (same discriminator, player id and variant-specific fields), and
deserializing any document whose name matches no known variant fails with
the unknown-action error. -/
theorem claim8_serialization (a : Action) (doc : ActionDoc)
    (hdoc : doc.name ∉ [DRAW_FROM_DECK, DRAW_FROM_DISCARD, DISCARD_CARD,
      CLOSE_ROUND, CONFIRM_ROUND_FINISHED]) :
    deserializeAction (serializeAction a) = .ok a ∧
      deserializeAction doc = .error "unknown action" := by
  constructor
  · cases a <;> rfl
  · simp only [List.mem_cons, List.not_mem_nil, or_false, not_or] at hdoc
    obtain ⟨h1, h2, h3, h4, h5⟩ := hdoc
    simp [deserializeAction, h1, h2, h3, h4, h5]

/-- Witness for C8 at concrete inputs: the discard variant round-trips and a
bogus discriminator fails. -/
theorem claim8_witness :
    deserializeAction (serializeAction (.discardCard ⟨"oro", 3⟩ 1)) =
      .ok (.discardCard ⟨"oro", 3⟩ 1) ∧
    deserializeAction ⟨"bogus", 0, none⟩ = .error "unknown action" :=
  claim8_serialization (.discardCard ⟨"oro", 3⟩ 1) ⟨"bogus", 0, none⟩
    (by decide)

/-! ## Claim C9: penalty points -/

theorem foldl_add_eq_sum_map (f : Card → Int) (l : List Card) :
    ∀ init : Int, l.foldl (fun acc c => acc + f c) init = init + (l.map f).sum := by
  induction l with
  | nil => intro init; simp
  | cons c rest ih =>
      intro init
      simp only [List.foldl_cons, List.map_cons, List.sum_cons, ih]
      ring

/-- C9: `PenaltyPoints(groups)` equals the sum, over the cards of the hand
belonging to no group of the list, of the card's penalty value — the number
when it is below 10 and 10 otherwise; a card in at least one group
contributes 0 no matter how many groups contain it. -/
theorem claim9_penaltyPoints (cards : List Card) (groups : List (List Card)) :
    penaltyPoints cards groups =
      ((cards.filter (fun c => decide (∀ gp ∈ groups, c ∉ gp))).map
        (fun c => if c.number < 10 then c.number else 10)).sum := by
  unfold penaltyPoints
  rw [foldl_add_eq_sum_map]
  have hfil : cards.filter (fun c => ¬ grouped groups c) =
      cards.filter (fun c => decide (∀ gp ∈ groups, c ∉ gp)) := by
    apply List.filter_congr
    intro c _
    simp only [decide_eq_decide]
    simp [grouped, List.any_eq_true]
  have hmap : (cards.filter (fun c => decide (∀ gp ∈ groups, c ∉ gp))).map
        Card.penaltyValue =
      (cards.filter (fun c => decide (∀ gp ∈ groups, c ∉ gp))).map
        (fun c => if c.number < 10 then c.number else 10) := by
    apply List.map_congr_left
    intro c _
    unfold Card.penaltyValue
    split_ifs <;> omega
  rw [hfil, hmap]
  omega

/-! ## Claim C1: the close action is never possible -/

/-- C1: in every reachable state `ActionClose.IsPossible` returns false
(whenever a card has been drawn the turn player holds 8 cards, but `CanClose`
demands exactly 7), and no close action ever appears in the computed
legal-move set. -/
theorem claim1_close_never_possible (g : GameState) (h : Reachable g)
    (pid : Int) :
    isPossible (.close pid) g = false ∧
      ∀ a ∈ calculatePossibleActions g, a.name ≠ CLOSE_ROUND := by
  have hWF := reachable_wf h
  refine ⟨isPossible_close_of_wf hWF pid, ?_⟩
  intro a ha hname
  obtain ⟨-, hposs⟩ := mem_calculatePossibleActions.mp ha
  cases a with
  | close p =>
      rw [isPossible_close_of_wf hWF p] at hposs
      exact absurd hposs (by simp)
  | drawFromDeck p =>
      simp [Action.name, DRAW_FROM_DECK, CLOSE_ROUND] at hname
  | drawFromDiscard p =>
      simp [Action.name, DRAW_FROM_DISCARD, CLOSE_ROUND] at hname
  | discardCard c p =>
      simp [Action.name, DISCARD_CARD, CLOSE_ROUND] at hname
  | confirmRoundFinished p =>
      simp [Action.name, CONFIRM_ROUND_FINISHED, CLOSE_ROUND] at hname

/-- Witness for C1 at a concrete reachable state: the fresh game. -/
theorem claim1_witness :
    isPossible (.close 0) (new 100 canonicalDeck) = false ∧
      ∀ a ∈ calculatePossibleActions (new 100 canonicalDeck),
        a.name ≠ CLOSE_ROUND :=
  claim1_close_never_possible _
    (Reachable.base 100 canonicalDeck (List.Perm.refl _)) 0

/-! ## Claim C3: card conservation (48 cards, not 40) -/

/-- Counterexample to C3 as stated: already the freshly created game holds
48 cards in total (`makeSpanishCards` builds 4 suits × numbers 1–12,
including the 8s and 9s), not 40. -/
theorem claim3_counterexample :
    Reachable (new 100 canonicalDeck) ∧
      (new 100 canonicalDeck).drawPile.length +
        (new 100 canonicalDeck).discardPile.length +
        ((new 100 canonicalDeck).player0.hand.length +
          (new 100 canonicalDeck).player1.hand.length) ≠ 40 :=
  ⟨Reachable.base 100 canonicalDeck (List.Perm.refl _), by decide⟩

/-- C3 as amended: in every reachable state the draw pile, discard pile and
the two hands partition the fixed 48-card deck — their concatenation is a
permutation of it (no card duplicated or lost) and the sizes sum to 48. -/
theorem claim3_card_conservation (g : GameState) (h : Reachable g) :
    (g.drawPile ++ g.discardPile ++ g.player0.hand ++ g.player1.hand).Perm
        canonicalDeck ∧
      g.drawPile.length + g.discardPile.length +
        (g.player0.hand.length + g.player1.hand.length) = 48 := by
  have hperm := (reachable_wf h).2.2.1
  refine ⟨hperm, ?_⟩
  have hlen := hperm.length_eq
  rw [canonicalDeck_length] at hlen
  simp only [allCards, List.length_append] at hlen
  omega

/-- Witness for C3's amended statement at the fresh game. -/
theorem claim3_witness :
    ((new 100 canonicalDeck).drawPile ++ (new 100 canonicalDeck).discardPile ++
        (new 100 canonicalDeck).player0.hand ++
        (new 100 canonicalDeck).player1.hand).Perm canonicalDeck ∧
      (new 100 canonicalDeck).drawPile.length +
        (new 100 canonicalDeck).discardPile.length +
        ((new 100 canonicalDeck).player0.hand.length +
          (new 100 canonicalDeck).player1.hand.length) = 48 :=
  claim3_card_conservation _
    (Reachable.base 100 canonicalDeck (List.Perm.refl _))

/-! ## Claim C4: the discard pile can transiently be emptied -/

/-- The reachable state after the first player draws the seed card from the
discard pile in a fresh default game. -/
def drainedDiscardState : GameState :=
  match runAction canonicalDeck (.drawFromDiscard 0) (new 100 canonicalDeck) with
  | .ok g => g
  | .error _ => new 100 canonicalDeck

/-- Counterexample to C4 as stated: drawing the seed card from the discard
pile is a legal first action and leaves the discard pile empty, a reachable
state. -/
theorem claim4_counterexample :
    Reachable drainedDiscardState ∧ drainedDiscardState.discardPile = [] := by
  constructor
  · exact Reachable.step (new 100 canonicalDeck) drainedDiscardState
      (.drawFromDiscard 0) canonicalDeck (List.Perm.refl _)
      (Reachable.base 100 canonicalDeck (List.Perm.refl _)) (by rfl)
  · rfl

/-- C4 as amended: in every reachable state in which the game is still
running and the turn player has not yet drawn, the discard pile is
non-empty (it can only be empty in the drawn half of a turn, or after the
game has ended under a non-positive max-points rule). -/
theorem claim4_discard_nonempty (g : GameState) (h : Reachable g)
    (hge : g.isGameEnded = false) (hd : g.hasDrawnCard = false) :
    g.discardPile ≠ [] :=
  ((reachable_wf h).2.2.2.1 hge).2.2 hd

/-- Witness for C4's amended statement at the fresh game. -/
theorem claim4_witness : (new 100 canonicalDeck).discardPile ≠ [] :=
  claim4_discard_nonempty _
    (Reachable.base 100 canonicalDeck (List.Perm.refl _)) (by rfl) (by rfl)

/-! ## Claim C6: hand sizes -/

/-- The reachable state after the first player draws from the deck in a game
created with a zero max-points rule: the score check ends the game, the
empty-move turn swap clears `HasDrawnCard`, and player 0 is left holding 8
cards. -/
def zeroPointsDrawState : GameState :=
  match runAction canonicalDeck (.drawFromDeck 0) (new 0 canonicalDeck) with
  | .ok g => g
  | .error _ => new 0 canonicalDeck

/-- Counterexample to C6 as stated: with the max-points rule set to 0 (a
documented `New` option), after the first draw the game ends and the state
has turn player 1, `HasDrawnCard` false, yet player 0 (not the turn player)
holds 8 cards — so "every player holds 7 except the turn player exactly when
`HasDrawnCard`" fails. -/
theorem claim6_counterexample :
    Reachable zeroPointsDrawState ∧
      zeroPointsDrawState.turnPlayerID = 1 ∧
      zeroPointsDrawState.hasDrawnCard = false ∧
      zeroPointsDrawState.player0.hand.length = 8 ∧
      zeroPointsDrawState.player1.hand.length = 7 := by
  refine ⟨Reachable.step (new 0 canonicalDeck) zeroPointsDrawState
      (.drawFromDeck 0) canonicalDeck (List.Perm.refl _)
      (Reachable.base 0 canonicalDeck (List.Perm.refl _)) (by rfl),
    by rfl, by rfl, by rfl, by rfl⟩

/-- C6 as amended: in every reachable state in which the game has not ended,
the turn ids are 0 and 1 in some order, the turn player holds exactly 8
cards when `HasDrawnCard` is true and exactly 7 otherwise, and the opponent
always holds exactly 7. -/
theorem claim6_hand_sizes (g : GameState) (h : Reachable g)
    (hge : g.isGameEnded = false) :
    ((g.turnPlayerID = 0 ∧ g.turnOpponentPlayerID = 1) ∨
      (g.turnPlayerID = 1 ∧ g.turnOpponentPlayerID = 0)) ∧
    (getPlayer g g.turnPlayerID).hand.length =
      (if g.hasDrawnCard then 8 else 7) ∧
    (getPlayer g g.turnOpponentPlayerID).hand.length = 7 := by
  have hWF := reachable_wf h
  exact ⟨hWF.1, (hWF.2.2.2.1 hge).1, (hWF.2.2.2.1 hge).2.1⟩

/-- Witness for C6's amended statement at the fresh game. -/
theorem claim6_witness :
    (((new 100 canonicalDeck).turnPlayerID = 0 ∧
        (new 100 canonicalDeck).turnOpponentPlayerID = 1) ∨
      ((new 100 canonicalDeck).turnPlayerID = 1 ∧
        (new 100 canonicalDeck).turnOpponentPlayerID = 0)) ∧
    (getPlayer (new 100 canonicalDeck)
        (new 100 canonicalDeck).turnPlayerID).hand.length =
      (if (new 100 canonicalDeck).hasDrawnCard then 8 else 7) ∧
    (getPlayer (new 100 canonicalDeck)
        (new 100 canonicalDeck).turnOpponentPlayerID).hand.length = 7 :=
  claim6_hand_sizes _
    (Reachable.base 100 canonicalDeck (List.Perm.refl _)) (by rfl)


/-- C2: with no chinchón in either hand, `CloseRound(closer)` scores as
follows — when the closer's penalty is strictly lower than the opponent's,
only the opponent's penalty is added to the opponent's score, plus an extra
10 exactly when the closer's penalty is 0, and the closer's score is
unchanged; otherwise (closer's penalty higher or equal) each player's own
penalty is added to their own score with no bonus. -/
theorem claim2_closeRound_scoring (g : GameState) (closer : Int)
    (hcl : closer = 0 ∨ closer = 1)
    (hch0 : isChinchon g.player0.hand = false)
    (hch1 : isChinchon g.player1.hand = false) :
    (playerPenalty (getPlayer g closer).hand <
        playerPenalty (getPlayer g (opponentOf closer)).hand →
      (getPlayer (closeRound g closer) (opponentOf closer)).score =
        (getPlayer g (opponentOf closer)).score +
          (playerPenalty (getPlayer g (opponentOf closer)).hand +
            (if playerPenalty (getPlayer g closer).hand = 0 then 10 else 0)) ∧
      (getPlayer (closeRound g closer) closer).score =
        (getPlayer g closer).score) ∧
    (playerPenalty (getPlayer g (opponentOf closer)).hand ≤
        playerPenalty (getPlayer g closer).hand →
      (getPlayer (closeRound g closer) closer).score =
        (getPlayer g closer).score +
          playerPenalty (getPlayer g closer).hand ∧
      (getPlayer (closeRound g closer) (opponentOf closer)).score =
        (getPlayer g (opponentOf closer)).score +
          playerPenalty (getPlayer g (opponentOf closer)).hand) := by
  rcases hcl with rfl | rfl
  · constructor
    · intro hlt
      have hlt' : playerPenalty g.player0.hand < playerPenalty g.player1.hand := by
        simpa [getPlayer, opponentOf] using hlt
      have hwin : (if playerPenalty g.player0.hand < playerPenalty g.player1.hand
          then (0 : Int)
          else if playerPenalty g.player1.hand < playerPenalty g.player0.hand
          then 1 else -1) = 0 := by
        rw [if_pos hlt']
      simp [closeRound, hch0, hch1, hwin, getPlayer, opponentOf, addScore,
        setPlayer]
    · intro hle
      have hle' : playerPenalty g.player1.hand ≤ playerPenalty g.player0.hand := by
        simpa [getPlayer, opponentOf] using hle
      have hwin : (if playerPenalty g.player0.hand < playerPenalty g.player1.hand
          then (0 : Int)
          else if playerPenalty g.player1.hand < playerPenalty g.player0.hand
          then 1 else -1) ≠ 0 := by
        rw [if_neg (by omega)]
        split_ifs <;> norm_num
      simp [closeRound, hch0, hch1, hwin, getPlayer, opponentOf, addScore,
        setPlayer]
  · constructor
    · intro hlt
      have hlt' : playerPenalty g.player1.hand < playerPenalty g.player0.hand := by
        simpa [getPlayer, opponentOf] using hlt
      have hwin : (if playerPenalty g.player0.hand < playerPenalty g.player1.hand
          then (0 : Int)
          else if playerPenalty g.player1.hand < playerPenalty g.player0.hand
          then 1 else -1) = 1 := by
        rw [if_neg (by omega), if_pos hlt']
      simp [closeRound, hch0, hch1, hwin, getPlayer, opponentOf, addScore,
        setPlayer]
    · intro hle
      have hle' : playerPenalty g.player0.hand ≤ playerPenalty g.player1.hand := by
        simpa [getPlayer, opponentOf] using hle
      have hwin : (if playerPenalty g.player0.hand < playerPenalty g.player1.hand
          then (0 : Int)
          else if playerPenalty g.player1.hand < playerPenalty g.player0.hand
          then 1 else -1) ≠ 1 := by
        by_cases h01 : playerPenalty g.player0.hand < playerPenalty g.player1.hand
        · rw [if_pos h01]; norm_num
        · rw [if_neg h01, if_neg (by omega)]; norm_num
      simp [closeRound, hch0, hch1, hwin, getPlayer, opponentOf, addScore,
        setPlayer]

/-- Concrete state witnessing C2: player 0 holds a single 1 (penalty 1),
player 1 a single 5 (penalty 5), scores 3 and 4. -/
def scoringWitnessState : GameState :=
  { roundNumber := 1, turnPlayerID := 0, turnOpponentPlayerID := 1,
    player0 := ⟨[⟨"oro", 1⟩], 3⟩, player1 := ⟨[⟨"copa", 5⟩], 4⟩,
    drawPile := [], discardPile := [], possibleActions := [],
    isRoundFinished := false, isGameEnded := false,
    winnerPlayerID := -1, loserPlayerID := -1,
    roundsLog := [emptyRoundLog, emptyRoundLog],
    confirmedIDs := [], ruleMaxPoints := 100,
    currentRoundClosedByPlayerID := -1, hasDrawnCard := false }

/-- Witness for C2: closing with the strictly lower penalty charges only the
opponent. -/
theorem claim2_witness :
    (getPlayer (closeRound scoringWitnessState 0) (opponentOf 0)).score =
      (getPlayer scoringWitnessState (opponentOf 0)).score +
        (playerPenalty (getPlayer scoringWitnessState (opponentOf 0)).hand +
          (if playerPenalty (getPlayer scoringWitnessState 0).hand = 0
            then 10 else 0)) ∧
    (getPlayer (closeRound scoringWitnessState 0) 0).score =
      (getPlayer scoringWitnessState 0).score :=
  (claim2_closeRound_scoring scoringWitnessState 0 (Or.inl rfl) (by decide)
    (by decide)).1 (by decide)


theorem setWasChinchon_get? (logs : List RoundLog) (idx : Nat)
    (h : idx < logs.length) :
    ((setWasChinchon logs idx).get? idx).map RoundLog.wasChinchon = some true := by
  have hsome : logs.get? idx = some logs[idx] := by
    rw [List.get?_eq_getElem?]
    exact List.getElem?_eq_getElem h
  unfold setWasChinchon
  rw [hsome]
  rw [List.get?_eq_getElem?, List.getElem?_set_self (by simpa using h)]
  rfl

/-- C5: whenever `CloseRound` runs on a state in which some player's hand is
a chinchón, the game ends immediately: `IsGameEnded` becomes true, a
chinchón holder is recorded as winner and the opponent as loser,
`WasChinchon` is set in the current round log, and neither player's score
changes. -/
theorem claim5_closeRound_chinchon (g : GameState) (closer : Int)
    (hidx : g.roundNumber < g.roundsLog.length)
    (hch : isChinchon g.player0.hand = true ∨ isChinchon g.player1.hand = true) :
    (closeRound g closer).isGameEnded = true ∧
    ((closeRound g closer).winnerPlayerID = 0 ∨
      (closeRound g closer).winnerPlayerID = 1) ∧
    isChinchon (getPlayer g (closeRound g closer).winnerPlayerID).hand = true ∧
    (closeRound g closer).loserPlayerID =
      opponentOf (closeRound g closer).winnerPlayerID ∧
    ((closeRound g closer).roundsLog.get? g.roundNumber).map
      RoundLog.wasChinchon = some true ∧
    (closeRound g closer).player0.score = g.player0.score ∧
    (closeRound g closer).player1.score = g.player1.score := by
  by_cases h0 : isChinchon g.player0.hand = true
  · have hcr : closeRound g closer = { g with
        isRoundFinished := true, currentRoundClosedByPlayerID := closer,
        isGameEnded := true, winnerPlayerID := 0, loserPlayerID := opponentOf 0,
        roundsLog := setWasChinchon g.roundsLog g.roundNumber } := by
      simp [closeRound, h0]
    rw [hcr]
    refine ⟨rfl, Or.inl rfl, ?_, rfl, ?_, rfl, rfl⟩
    · simpa [getPlayer] using h0
    · exact setWasChinchon_get? _ _ hidx
  · have h1 : isChinchon g.player1.hand = true := hch.resolve_left h0
    have h0' : isChinchon g.player0.hand = false := by simpa using h0
    have hcr : closeRound g closer = { g with
        isRoundFinished := true, currentRoundClosedByPlayerID := closer,
        isGameEnded := true, winnerPlayerID := 1, loserPlayerID := opponentOf 1,
        roundsLog := setWasChinchon g.roundsLog g.roundNumber } := by
      simp [closeRound, h0', h1]
    rw [hcr]
    refine ⟨rfl, Or.inr rfl, ?_, rfl, ?_, rfl, rfl⟩
    · simpa [getPlayer] using h1
    · exact setWasChinchon_get? _ _ hidx

/-- Concrete state witnessing C5: player 0 holds the 1–7 of oro. -/
def chinchonWitnessState : GameState :=
  { roundNumber := 1, turnPlayerID := 0, turnOpponentPlayerID := 1,
    player0 := ⟨[⟨"oro", 1⟩, ⟨"oro", 2⟩, ⟨"oro", 3⟩, ⟨"oro", 4⟩,
      ⟨"oro", 5⟩, ⟨"oro", 6⟩, ⟨"oro", 7⟩], 2⟩,
    player1 := ⟨[⟨"copa", 5⟩], 6⟩,
    drawPile := [], discardPile := [], possibleActions := [],
    isRoundFinished := false, isGameEnded := false,
    winnerPlayerID := -1, loserPlayerID := -1,
    roundsLog := [emptyRoundLog, emptyRoundLog],
    confirmedIDs := [], ruleMaxPoints := 100,
    currentRoundClosedByPlayerID := -1, hasDrawnCard := false }

/-- Witness for C5: closing on a chinchón hand ends the game at once. -/
theorem claim5_witness :
    (closeRound chinchonWitnessState 0).isGameEnded = true ∧
    ((closeRound chinchonWitnessState 0).winnerPlayerID = 0 ∨
      (closeRound chinchonWitnessState 0).winnerPlayerID = 1) ∧
    isChinchon (getPlayer chinchonWitnessState
      (closeRound chinchonWitnessState 0).winnerPlayerID).hand = true ∧
    (closeRound chinchonWitnessState 0).loserPlayerID =
      opponentOf (closeRound chinchonWitnessState 0).winnerPlayerID ∧
    ((closeRound chinchonWitnessState 0).roundsLog.get?
      chinchonWitnessState.roundNumber).map RoundLog.wasChinchon = some true ∧
    (closeRound chinchonWitnessState 0).player0.score =
      chinchonWitnessState.player0.score ∧
    (closeRound chinchonWitnessState 0).player1.score =
      chinchonWitnessState.player1.score :=
  claim5_closeRound_chinchon chinchonWitnessState 0 (by decide)
    (Or.inl (by decide))


/-- Replace the hand of player `pid`, leaving everything else (including the
player's score) unchanged: the "two states identical except for the
opponent's hand" relation of claim C10. -/
def setHand (g : GameState) (pid : Int) (h : List Card) : GameState :=
  setPlayer g pid { getPlayer g pid with hand := h }

theorem serializeAction_playerID (a : Action) :
    (serializeAction a).playerID = a.playerID := by
  cases a <;> rfl

theorem isPossible_confirm_setPlayer (g : GameState) (q : Int) (p : Player)
    (pl : Int) :
    isPossible (.confirmRoundFinished pl) (setPlayer g q p) =
      isPossible (.confirmRoundFinished pl) g := by
  unfold isPossible setPlayer
  split_ifs <;> rfl

theorem isPossible_setHand_own (g : GameState) (v : Int) (hv : v = 0 ∨ v = 1)
    (h2 : List Card) (a : Action) (hpa : a.playerID = v) :
    isPossible a (setHand g (opponentOf v) h2) = isPossible a g := by
  rcases hv with rfl | rfl <;>
    cases a <;>
      (simp only [Action.playerID] at hpa; subst hpa;
       simp [isPossible, setHand, setPlayer, getPlayer, opponentOf, canClose,
         hasCard])

theorem candidateActions_setHand_turn (g : GameState) (v : Int)
    (hv : v = 0 ∨ v = 1) (h2 : List Card) (ht : g.turnPlayerID = v) :
    candidateActions (setHand g (opponentOf v) h2) = candidateActions g := by
  rcases hv with rfl | rfl <;>
    simp [candidateActions, setHand, setPlayer, getPlayer, opponentOf, ht,
      canClose]

theorem clientActions_eq_filter (X : GameState) (v : Int) :
    (calculatePossibleActions X).filter (fun a => a.playerID = v) =
      (candidateActions X).filter
        (fun a => decide (a.playerID = v) && isPossible a X) := by
  rw [calculatePossibleActions_eq_filter, List.filter_filter]

theorem clientActions_nonturn (X : GameState) (v : Int)
    (hnt : ¬ X.turnPlayerID = v) :
    (calculatePossibleActions X).filter (fun a => a.playerID = v) =
      ([Action.confirmRoundFinished X.turnPlayerID,
        Action.confirmRoundFinished X.turnOpponentPlayerID]).filter
        (fun a => decide (a.playerID = v) && isPossible a X) := by
  rw [clientActions_eq_filter]
  unfold candidateActions
  rw [List.filter_append, List.filter_append, List.filter_append]
  have hA : (if ¬ X.hasDrawnCard ∧ ¬ X.isRoundFinished then
      [Action.drawFromDeck X.turnPlayerID,
       Action.drawFromDiscard X.turnPlayerID] else []).filter
        (fun a => decide (a.playerID = v) && isPossible a X) = [] := by
    split_ifs
    · simp [Action.playerID, hnt]
    · rfl
  have hB : (if X.hasDrawnCard ∧ ¬ X.isRoundFinished then
      (getPlayer X X.turnPlayerID).hand.map
        (fun c => Action.discardCard c X.turnPlayerID) else []).filter
        (fun a => decide (a.playerID = v) && isPossible a X) = [] := by
    split_ifs
    · refine List.filter_eq_nil_iff.mpr (fun a ha => ?_)
      obtain ⟨c, -, rfl⟩ := List.mem_map.mp ha
      simp [Action.playerID, hnt]
    · rfl
  have hC : (if canClose X X.turnPlayerID ∧ X.hasDrawnCard then
      [Action.close X.turnPlayerID] else []).filter
        (fun a => decide (a.playerID = v) && isPossible a X) = [] := by
    split_ifs
    · simp [Action.playerID, hnt]
    · rfl
  rw [hA, hB, hC]
  simp

theorem clientActions_opp_invariant (g : GameState) (v : Int)
    (hv : v = 0 ∨ v = 1) (h2 : List Card) :
    (calculatePossibleActions (setHand g (opponentOf v) h2)).filter
      (fun a => a.playerID = v) =
    (calculatePossibleActions g).filter (fun a => a.playerID = v) := by
  by_cases ht : g.turnPlayerID = v
  · rw [clientActions_eq_filter, clientActions_eq_filter,
      candidateActions_setHand_turn g v hv h2 ht]
    apply List.filter_congr
    intro a ha
    by_cases hpa : a.playerID = v
    · rw [isPossible_setHand_own g v hv h2 a hpa]
    · simp [hpa]
  · have ht2 : ¬ (setHand g (opponentOf v) h2).turnPlayerID = v := by
      rcases hv with rfl | rfl <;>
        simpa [setHand, setPlayer, getPlayer, opponentOf] using ht
    have e1 : (setHand g (opponentOf v) h2).turnPlayerID = g.turnPlayerID := by
      rcases hv with rfl | rfl <;>
        simp [setHand, setPlayer, getPlayer, opponentOf]
    have e2 : (setHand g (opponentOf v) h2).turnOpponentPlayerID =
        g.turnOpponentPlayerID := by
      rcases hv with rfl | rfl <;>
        simp [setHand, setPlayer, getPlayer, opponentOf]
    rw [clientActions_nonturn _ v ht2, clientActions_nonturn g v ht, e1, e2]
    apply List.filter_congr
    intro a ha
    simp only [List.mem_cons, List.not_mem_nil, or_false] at ha
    rcases ha with rfl | rfl <;>
      · simp only [setHand]
        rw [isPossible_confirm_setPlayer]

/-- C10: for a resident viewer id `v`, two game states identical except for
the content of the opponent's hand (of equal size) produce identical client
projections — the opponent's hand is exposed only through its size — and
every action in the returned `PossibleActions` list belongs to the
viewer. -/
theorem claim10_client_projection (g : GameState) (v : Int)
    (hv : v = 0 ∨ v = 1) (h2 : List Card)
    (hlen : h2.length = (getPlayer g (opponentOf v)).hand.length) :
    toClientGameState (setHand g (opponentOf v) h2) v = toClientGameState g v ∧
    ∀ d ∈ (toClientGameState g v).possibleActions, d.playerID = v := by
  constructor
  · have hfilt := clientActions_opp_invariant g v hv h2
    rcases hv with rfl | rfl <;>
      · simp [setHand, setPlayer, getPlayer, opponentOf] at hfilt hlen
        simp [toClientGameState, setHand, setPlayer, getPlayer, opponentOf,
          hfilt, hlen]
  · intro d hd
    simp only [toClientGameState] at hd
    obtain ⟨a, ha, rfl⟩ := List.mem_map.mp hd
    rw [serializeAction_playerID]
    have := (List.mem_filter.mp ha).2
    simpa using this

/-! ## Witness for C10 -/

/-- Witness for C10 at a fresh game with the opponent's 7 cards replaced by
seven other cards. -/
theorem claim10_witness :
    toClientGameState (setHand (new 100 canonicalDeck) (opponentOf 0)
        [⟨"basto", 1⟩, ⟨"basto", 2⟩, ⟨"basto", 3⟩, ⟨"basto", 4⟩,
         ⟨"basto", 5⟩, ⟨"basto", 6⟩, ⟨"basto", 7⟩]) 0 =
      toClientGameState (new 100 canonicalDeck) 0 ∧
    ∀ d ∈ (toClientGameState (new 100 canonicalDeck) 0).possibleActions,
      d.playerID = 0 :=
  claim10_client_projection (new 100 canonicalDeck) 0 (Or.inl rfl)
    [⟨"basto", 1⟩, ⟨"basto", 2⟩, ⟨"basto", 3⟩, ⟨"basto", 4⟩,
     ⟨"basto", 5⟩, ⟨"basto", 6⟩, ⟨"basto", 7⟩] (by decide)

end Chinchon
